import Mathlib

/-!
Shallow embedding of `src/examples/websockets_chat.rs` (a warp websocket
chat server) and proofs about its message-handling core.

The embedding models:
- warp's `Message` type and its `to_str` method (`WsMessage`);
- `serde_json::from_str::<ChatMessage>` as a JSON parser (`parseJsonVal`
  and friends) followed by the externally-tagged-enum deserializer that
  `#[derive(Deserialize)]` generates (`chatMessageFromJson`);
- `serde_json::to_string` for `Responses` (`serde_json_to_string`), with
  serde's string escaping;
- the user registry `Users = Arc<Mutex<HashMap<usize, UnboundedSender<Message>>>>`
  as an association list from user id to a connection state (`Registry`),
  where each connection carries its outbound queue and whether the
  receiving half of the unbounded channel is still alive;
- `user_message`, `user_disconnected`, the registry insert performed by
  `user_connected`, and the `NEXT_USER_ID` atomic counter.

`user_message` additionally returns the log lines it emits via `eprintln!`
and a trace of lock/enqueue events, so that locking discipline and
broadcast behavior are visible to theorems.  Panics (`unwrap`) are
modelled by returning `none`.
-/

namespace WebsocketsChat

/-- The `"` character (written via its code point to keep string literals
plain). -/
def quoteChar : Char := Char.ofNat 34

/-- The `\` character. -/
def backslashChar : Char := Char.ofNat 92

/-- The left curly brace character. -/
def lbraceChar : Char := Char.ofNat 123

/-- The right curly brace character. -/
def rbraceChar : Char := Char.ofNat 125

/-- JSON values, as parsed by `serde_json`.  Number lexemes are kept as raw
strings: the chat protocol never inspects numeric values, they can only
occur inside ignored fields. -/
inductive Json where
  | null
  | bool (b : Bool)
  | num (lexeme : String)
  | str (s : String)
  | arr (items : List Json)
  | obj (fields : List (String × Json))
deriving Repr, Inhabited

/-- JSON insignificant whitespace. -/
def isJsonWs (c : Char) : Bool :=
  c = ' ' || c = Char.ofNat 9 || c = Char.ofNat 10 || c = Char.ofNat 13

/-- Drop leading JSON whitespace. -/
def skipWs : List Char → List Char
  | [] => []
  | c :: rest => if isJsonWs c then skipWs rest else c :: rest

/-- Value of a hexadecimal digit. -/
def hexVal (c : Char) : Option Nat :=
  if '0' ≤ c ∧ c ≤ '9' then some (c.toNat - 48)
  else if 'a' ≤ c ∧ c ≤ 'f' then some (c.toNat - 87)
  else if 'A' ≤ c ∧ c ≤ 'F' then some (c.toNat - 55)
  else none

/-- Parse the body of a JSON string (the opening quote has already been
consumed), handling escape sequences as `serde_json` does.  `fuel` bounds
the recursion; callers pass the length of the remaining input, which
suffices since every step consumes at least one character. -/
def parseStringBody : Nat → List Char → Except String (String × List Char)
  | 0, _ => .error "string parser out of fuel"
  | _ + 1, [] => .error "unterminated string"
  | fuel + 1, c :: rest =>
    if c = quoteChar then .ok ("", rest)
    else if c = backslashChar then
      match rest with
      | [] => .error "unterminated escape"
      | e :: rest2 =>
        if e = quoteChar then
          match parseStringBody fuel rest2 with
          | .error msg => .error msg
          | .ok (s, r) => .ok (String.singleton quoteChar ++ s, r)
        else if e = backslashChar then
          match parseStringBody fuel rest2 with
          | .error msg => .error msg
          | .ok (s, r) => .ok (String.singleton backslashChar ++ s, r)
        else if e = '/' then
          match parseStringBody fuel rest2 with
          | .error msg => .error msg
          | .ok (s, r) => .ok ("/" ++ s, r)
        else if e = 'b' then
          match parseStringBody fuel rest2 with
          | .error msg => .error msg
          | .ok (s, r) => .ok (String.singleton (Char.ofNat 8) ++ s, r)
        else if e = 'f' then
          match parseStringBody fuel rest2 with
          | .error msg => .error msg
          | .ok (s, r) => .ok (String.singleton (Char.ofNat 12) ++ s, r)
        else if e = 'n' then
          match parseStringBody fuel rest2 with
          | .error msg => .error msg
          | .ok (s, r) => .ok (String.singleton (Char.ofNat 10) ++ s, r)
        else if e = 'r' then
          match parseStringBody fuel rest2 with
          | .error msg => .error msg
          | .ok (s, r) => .ok (String.singleton (Char.ofNat 13) ++ s, r)
        else if e = 't' then
          match parseStringBody fuel rest2 with
          | .error msg => .error msg
          | .ok (s, r) => .ok (String.singleton (Char.ofNat 9) ++ s, r)
        else if e = 'u' then
          match rest2 with
          | h1 :: h2 :: h3 :: h4 :: rest3 =>
            match hexVal h1, hexVal h2, hexVal h3, hexVal h4 with
            | some v1, some v2, some v3, some v4 =>
              let code := ((v1 * 16 + v2) * 16 + v3) * 16 + v4
              if code < 0xd800 ∨ 0xe000 ≤ code then
                match parseStringBody fuel rest3 with
                | .error msg => .error msg
                | .ok (s, r) =>
                  .ok (String.singleton (Char.ofNat code) ++ s, r)
              else .error "unsupported surrogate escape"
            | _, _, _, _ => .error "invalid hex escape"
          | _ => .error "invalid hex escape"
        else .error "unknown escape"
    else if c.toNat < 32 then .error "control character in string"
    else
      match parseStringBody fuel rest with
      | .error msg => .error msg
      | .ok (s, r) => .ok (String.singleton c ++ s, r)

/-- Consume an exact literal (`true`, `false`, `null` tails). -/
def stripLit : List Char → List Char → Option (List Char)
  | [], rest => some rest
  | _ :: _, [] => none
  | l :: ls, c :: rest => if c = l then stripLit ls rest else none

/-- Parse a JSON number, returning its lexeme.  Follows the JSON grammar
(`-?(0|[1-9][0-9]*)(.[0-9]+)?([eE][+-]?[0-9]+)?`). -/
def parseNumber (cs : List Char) : Except String (Json × List Char) :=
  let (negPart, cs1) :=
    match cs with
    | c :: rest => if c = '-' then ([c], rest) else ([], cs)
    | [] => ([], cs)
  match cs1 with
  | [] => .error "invalid number"
  | d :: _ =>
    if ¬ d.isDigit then .error "invalid number"
    else
      let (intPart, cs2) := cs1.span Char.isDigit
      if d = '0' ∧ intPart.length > 1 then .error "invalid number"
      else
        let (fracPart, cs3) :=
          match cs2 with
          | p :: cs2a =>
            if p = '.' then
              let (ds, r) := cs2a.span Char.isDigit
              if ds.isEmpty then ([p], cs2a) else (p :: ds, r)
            else ([], cs2)
          | [] => ([], cs2)
        if fracPart = ['.'] then .error "invalid number"
        else
          let (expPart, cs4) :=
            match cs3 with
            | p :: cs3a =>
              if p = 'e' ∨ p = 'E' then
                let (sign, cs3b) :=
                  match cs3a with
                  | q :: cs3c => if q = '+' ∨ q = '-' then ([q], cs3c) else ([], cs3a)
                  | [] => ([], cs3a)
                let (ds, r) := cs3b.span Char.isDigit
                if ds.isEmpty then ([p], cs3a) else (p :: sign ++ ds, r)
              else ([], cs3)
            | [] => ([], cs3)
          if expPart = ['e'] ∨ expPart = ['E'] then .error "invalid number"
          else
            .ok (Json.num (String.mk (negPart ++ intPart ++ fracPart ++ expPart)), cs4)

mutual

/-- Parse one JSON value.  `fuel` bounds the recursion depth; the
top-level entry point passes ample fuel. -/
def parseJsonVal : Nat → List Char → Except String (Json × List Char)
  | 0, _ => .error "json too deeply nested"
  | fuel + 1, cs =>
    match skipWs cs with
    | [] => .error "unexpected end of input"
    | c :: rest =>
      if c = quoteChar then
        match parseStringBody rest.length rest with
        | .error msg => .error msg
        | .ok (s, r) => .ok (.str s, r)
      else if c = lbraceChar then
        match skipWs rest with
        | [] => .error "unexpected end of input in object"
        | c2 :: rest2 =>
          if c2 = rbraceChar then .ok (.obj [], rest2)
          else
            match parseObjMember fuel (c2 :: rest2) with
            | .error msg => .error msg
            | .ok (kv, r) => parseObjRest fuel [kv] r
      else if c = '[' then
        match skipWs rest with
        | [] => .error "unexpected end of input in array"
        | c2 :: rest2 =>
          if c2 = ']' then .ok (.arr [], rest2)
          else
            match parseJsonVal fuel (c2 :: rest2) with
            | .error msg => .error msg
            | .ok (v, r) => parseArrRest fuel [v] r
      else if c = 't' then
        match stripLit ['r', 'u', 'e'] rest with
        | some r => .ok (.bool true, r)
        | none => .error "invalid literal"
      else if c = 'f' then
        match stripLit ['a', 'l', 's', 'e'] rest with
        | some r => .ok (.bool false, r)
        | none => .error "invalid literal"
      else if c = 'n' then
        match stripLit ['u', 'l', 'l'] rest with
        | some r => .ok (.null, r)
        | none => .error "invalid literal"
      else if c = '-' ∨ c.isDigit then parseNumber (c :: rest)
      else .error "unexpected character"

/-- Parse one `"key": value` member of a JSON object. -/
def parseObjMember : Nat → List Char → Except String ((String × Json) × List Char)
  | 0, _ => .error "json too deeply nested"
  | fuel + 1, cs =>
    match skipWs cs with
    | [] => .error "unexpected end of input in object"
    | c :: rest =>
      if c = quoteChar then
        match parseStringBody rest.length rest with
        | .error msg => .error msg
        | .ok (k, r) =>
          match skipWs r with
          | [] => .error "unexpected end of input in object"
          | c2 :: rest2 =>
            if c2 = ':' then
              match parseJsonVal fuel rest2 with
              | .error msg => .error msg
              | .ok (v, r2) => .ok ((k, v), r2)
            else .error "expected colon"
      else .error "key must be a string"

/-- Parse the rest of a JSON object after at least one member. -/
def parseObjRest : Nat → List (String × Json) → List Char → Except String (Json × List Char)
  | 0, _, _ => .error "json too deeply nested"
  | fuel + 1, acc, cs =>
    match skipWs cs with
    | [] => .error "unexpected end of input in object"
    | c :: rest =>
      if c = rbraceChar then .ok (.obj acc.reverse, rest)
      else if c = ',' then
        match parseObjMember fuel rest with
        | .error msg => .error msg
        | .ok (kv, r) => parseObjRest fuel (kv :: acc) r
      else .error "expected comma or end of object"

/-- Parse the rest of a JSON array after at least one item. -/
def parseArrRest : Nat → List Json → List Char → Except String (Json × List Char)
  | 0, _, _ => .error "json too deeply nested"
  | fuel + 1, acc, cs =>
    match skipWs cs with
    | [] => .error "unexpected end of input in array"
    | c :: rest =>
      if c = ']' then .ok (.arr acc.reverse, rest)
      else if c = ',' then
        match parseJsonVal fuel rest with
        | .error msg => .error msg
        | .ok (v, r) => parseArrRest fuel (v :: acc) r
      else .error "expected comma or end of array"

end

/-- Model of `serde_json::from_str` up to the JSON-value level: parse a complete
JSON document, rejecting trailing characters. -/
def jsonFromStr (s : String) : Except String Json :=
  match parseJsonVal (2 * s.length + 2) s.data with
  | .error msg => .error msg
  | .ok (j, rest) =>
    match skipWs rest with
    | [] => .ok j
    | _ :: _ => .error "trailing characters"

/-- The inbound message envelope:
`enum ChatMessage { Send { text: String } }`. -/
inductive ChatMessage where
  | Send (text : String)
deriving Repr, DecidableEq

/-- The outbound message envelope:
`enum Responses { NewMessage { by: String, text: String } }`.
The Rust field `by` is a Lean keyword, so it is bound as `by_`. -/
inductive Responses where
  | NewMessage (by_ : String) (text : String)
deriving Repr, DecidableEq

/-- First value bound to a key in a parsed object. -/
def getField (fields : List (String × Json)) (k : String) : Option Json :=
  match fields.find? (fun p => p.1 = k) with
  | some p => some p.2
  | none => none

/-- How many times a key occurs in a parsed object. -/
def countKey (fields : List (String × Json)) (k : String) : Nat :=
  fields.countP (fun p => p.1 = k)

/-- The deserializer that `#[derive(Deserialize)]` generates for
`ChatMessage`: an externally tagged enum is a map with a single key naming
the variant; the struct variant `Send` then requires the field `text` as a
string, rejects a duplicated `text`, and ignores unknown fields (serde's
default). -/
def chatMessageFromJson : Json → Except String ChatMessage
  | .obj [(tag, v)] =>
    if tag = "Send" then
      match v with
      | .obj fields =>
        if countKey fields "text" > 1 then .error "duplicate field text"
        else
          match getField fields "text" with
          | some (.str t) => .ok (.Send t)
          | some _ => .error "invalid type for field text"
          | none => .error "missing field text"
      | _ => .error "invalid type for variant Send"
    else .error ("unknown variant " ++ tag)
  | .obj _ => .error "expected map with a single key"
  | _ => .error "expected externally tagged enum"

/-- Model of `serde_json::from_str::<ChatMessage>`. -/
def serde_json_from_str (s : String) : Except String ChatMessage :=
  match jsonFromStr s with
  | .error msg => .error msg
  | .ok j => chatMessageFromJson j

/-- One hexadecimal digit, lowercase, as `serde_json` prints them. -/
def hexDigitChar (n : Nat) : Char :=
  if n < 10 then Char.ofNat (48 + n) else Char.ofNat (87 + n)

/-- Model of `serde_json`'s escaping of one character inside a JSON string: quote,
backslash and the short control escapes get a two-character form, other
control characters become `\u00XX`, everything else is emitted as is. -/
def escapeChar (c : Char) : String :=
  if c = quoteChar then String.singleton backslashChar ++ String.singleton quoteChar
  else if c = backslashChar then String.singleton backslashChar ++ String.singleton backslashChar
  else if c.toNat = 8 then String.singleton backslashChar ++ "b"
  else if c.toNat = 9 then String.singleton backslashChar ++ "t"
  else if c.toNat = 10 then String.singleton backslashChar ++ "n"
  else if c.toNat = 12 then String.singleton backslashChar ++ "f"
  else if c.toNat = 13 then String.singleton backslashChar ++ "r"
  else if c.toNat < 32 then
    String.singleton backslashChar ++ "u00" ++
      String.singleton (hexDigitChar (c.toNat / 16)) ++
      String.singleton (hexDigitChar (c.toNat % 16))
  else String.singleton c

/-- Model of `serde_json`'s escaping of a whole string. -/
def escapeJsonString (s : String) : String :=
  String.join (s.data.map escapeChar)

/-- A JSON string literal: escaped contents between quotes. -/
def jsonQuote (s : String) : String :=
  String.singleton quoteChar ++ escapeJsonString s ++ String.singleton quoteChar

/-- The JSON document `serde_json::to_string` produces for a `Responses`
value: `{"NewMessage":{"by":<by>,"text":<text>}}` with fields in
declaration order. -/
def serializeResponse : Responses → String
  | .NewMessage by_ text =>
    String.singleton lbraceChar ++ jsonQuote "NewMessage" ++ ":" ++
      String.singleton lbraceChar ++ jsonQuote "by" ++ ":" ++ jsonQuote by_ ++
      "," ++ jsonQuote "text" ++ ":" ++ jsonQuote text ++
      String.singleton rbraceChar ++ String.singleton rbraceChar

/-- Model of `serde_json::to_string(&response)`.  Its Rust signature is fallible
(`serde_json::Result<String>`), which the `Except` mirrors, but for the
derived `Serialize` of `Responses` — a struct variant of strings —
serialization is structurally infallible, so this always returns `.ok`. -/
def serde_json_to_string (r : Responses) : Except String String :=
  .ok (serializeResponse r)

/-- warp's `ws::Message` frame kinds. -/
inductive WsMessage where
  | text (s : String)
  | binary (bytes : List Nat)
  | ping (bytes : List Nat)
  | pong (bytes : List Nat)
  | close
deriving Repr, DecidableEq

/-- Model of `Message::to_str`: `Ok` with the payload for a text frame, `Err` for
every other frame kind (mirrored as `Option`). -/
def WsMessage.to_str : WsMessage → Option String
  | .text s => some s
  | _ => none

/-- One registry entry's value: the `mpsc::UnboundedSender<Message>` side
of a connection.  `queue` is the FIFO of messages enqueued and not yet
consumed; `isOpen` records whether the receiving half (the forwarding task
spawned in `user_connected`) is still alive — `unbounded_send` fails
exactly when it is not. -/
structure Conn where
  queue : List WsMessage
  isOpen : Bool
deriving Repr, DecidableEq

/-- The `Users` map (`HashMap<usize, UnboundedSender<Message>>`) as an
association list from user id to connection state. -/
abbrev Registry := List (Nat × Conn)

/-- Events observable while `user_message` runs: taking and releasing the
registry mutex, and each `unbounded_send` attempt with its payload. -/
inductive Event where
  | lockAcquire
  | lockRelease
  | enqueueAttempt (uid : Nat) (payload : WsMessage)
deriving Repr, DecidableEq

/-- Model of `tx.unbounded_send(m)`: appends to the queue when the receiver is
alive; when it is gone the `Err(_disconnected)` branch of `user_message`
swallows the failure and the connection state is left untouched. -/
def sendToUser (c : Conn) (m : WsMessage) : Conn :=
  if c.isOpen then { c with queue := c.queue ++ [m] } else c

/-- The broadcast loop of `user_message`
(`for (&uid, tx) in users.lock().unwrap().iter()`): every entry whose id
differs from `my_id` gets an `unbounded_send` of the freshly serialized
response (the serialization and its `unwrap` happen inside the loop; a
panic is modelled as `none`).  Returns the updated registry together with
the enqueue events in iteration order. -/
def broadcastLoop (my_id : Nat) (response : Responses) :
    Registry → Option (Registry × List Event)
  | [] => some ([], [])
  | (uid, c) :: rest =>
    if my_id ≠ uid then
      match serde_json_to_string response with
      | .error _ => none
      | .ok s =>
        match broadcastLoop my_id response rest with
        | none => none
        | some (r, evs) =>
          some ((uid, sendToUser c (WsMessage.text s)) :: r,
            Event.enqueueAttempt uid (WsMessage.text s) :: evs)
    else
      match broadcastLoop my_id response rest with
      | none => none
      | some (r, evs) => some ((uid, c) :: r, evs)

/-- Result of one `user_message` call: the registry afterwards, the log
lines written with `eprintln!`, and the observed lock/enqueue events. -/
structure MsgResult where
  users : Registry
  logs : List String
  events : List Event
deriving Repr, DecidableEq

/-- Model of `user_message(my_id, msg, users)`.

- `msg.to_str().unwrap()` panics (`none`) on non-text frames;
- a decode failure is logged twice and the function returns with the
  registry untouched, no lock taken, no enqueue;
- a decoded `Send { text }` builds `NewMessage { by: "someone", text }`
  and runs the broadcast loop while holding the registry mutex: the lock
  is acquired by `users.lock().unwrap().iter()` and released only when
  the loop ends. -/
def user_message (my_id : Nat) (msg : WsMessage) (users : Registry) :
    Option MsgResult :=
  match msg.to_str with
  | none => none
  | some msg_bytes =>
    match serde_json_from_str msg_bytes with
    | .error e =>
      some { users := users,
             logs := ["Failed to decode: " ++ msg_bytes, "Failed to decode: " ++ e],
             events := [] }
    | .ok (.Send text) =>
      let response := Responses.NewMessage "someone" text
      match broadcastLoop my_id response users with
      | none => none
      | some (users2, evs) =>
        some { users := users2,
               logs := [],
               events := Event.lockAcquire :: evs ++ [Event.lockRelease] }

/-- Model of `user_disconnected(my_id, users)`: `HashMap::remove(&my_id)` under the
registry mutex (the `eprintln!` greeting is logging only). -/
def user_disconnected (my_id : Nat) (users : Registry) : Registry :=
  users.filter (fun p => p.1 ≠ my_id)

/-- The registry insert performed by `user_connected`
(`users.lock().unwrap().insert(my_id, tx)`): `HashMap::insert` replaces
any previous binding of the key. -/
def registryInsert (id : Nat) (c : Conn) (users : Registry) : Registry :=
  (id, c) :: users.filter (fun p => p.1 ≠ id)

/-- The keys currently present in the registry. -/
def registryKeys (r : Registry) : List Nat := r.map Prod.fst

/-- Width of `usize` in bits; the example binary targets a 64-bit
platform. -/
def usizeBits : Nat := 64

/-- Model of `AtomicUsize::fetch_add(1, Ordering::Relaxed)`: returns the
previous value; atomic adds in Rust wrap, so the new state is one greater
modulo `usize::MAX + 1`. -/
def fetch_add (st : Nat) : Nat × Nat := (st, (st + 1) % 2 ^ usizeBits)

/-- Model of `static NEXT_USER_ID: AtomicUsize = AtomicUsize::new(1)`. -/
def NEXT_USER_ID_init : Nat := 1

/-- Counter state after `n` allocations. -/
def allocStateAfter : Nat → Nat
  | 0 => NEXT_USER_ID_init
  | n + 1 => (fetch_add (allocStateAfter n)).2

/-- The id returned by the `(n+1)`-st call to
`NEXT_USER_ID.fetch_add(1, Ordering::Relaxed)` in `user_connected`. -/
def allocValue (n : Nat) : Nat := (fetch_add (allocStateAfter n)).1

/-- Lifecycle events acting on the registry: `user_connected`'s insert and
`user_disconnected`'s remove. -/
inductive LifecycleEvent where
  | connect (id : Nat) (handle : Conn)
  | disconnect (id : Nat)
deriving Repr, DecidableEq

/-- Apply one lifecycle event to the registry. -/
def lifecycleStep (users : Registry) : LifecycleEvent → Registry
  | .connect id h => registryInsert id h users
  | .disconnect id => user_disconnected id users

/-- The registry reached from the empty initial map
(`Arc::new(Mutex::new(HashMap::new()))`) by a sequence of lifecycle
events. -/
def runLifecycle (es : List LifecycleEvent) : Registry :=
  es.foldl lifecycleStep []

/-- Whether, after `es`, the id has completed a `connect` and not yet
completed a `disconnect` (starting from membership status `b`): the last
event mentioning `id` is a connect. -/
def openFrom (b : Bool) (es : List LifecycleEvent) (id : Nat) : Bool :=
  es.foldl (fun acc e =>
    match e with
    | .connect i _ => if i = id then true else acc
    | .disconnect i => if i = id then false else acc) b

/-- Whether, after `es` from the empty registry, the id has completed a
`connect` and not yet completed a `disconnect`. -/
def openAfter (es : List LifecycleEvent) (id : Nat) : Bool :=
  openFrom false es id

/-- The ids that appear in some `connect` event of `es`. -/
def connectedIds (es : List LifecycleEvent) : List Nat :=
  es.filterMap (fun e =>
    match e with
    | .connect i _ => some i
    | .disconnect _ => none)

/-- Scan of an event trace: `true` when some enqueue attempt happens while
the registry lock is held (`d` is the current lock depth). -/
def enqueueWhileLockedFrom (d : Nat) : List Event → Bool
  | [] => false
  | .lockAcquire :: r => enqueueWhileLockedFrom (d + 1) r
  | .lockRelease :: r => enqueueWhileLockedFrom (d - 1) r
  | .enqueueAttempt _ _ :: r =>
    if d > 0 then true else enqueueWhileLockedFrom d r

/-- Whether some enqueue attempt in the trace happens while the registry
lock is held. -/
def enqueueWhileLocked (evs : List Event) : Bool :=
  enqueueWhileLockedFrom 0 evs

/-- The serialized broadcast payload for a given text. -/
def broadcastPayload (text : String) : WsMessage :=
  WsMessage.text (serializeResponse (Responses.NewMessage "someone" text))

/-- What the broadcast pass does to a single registry entry. -/
def broadcastEntry (my_id : Nat) (text : String) (p : Nat × Conn) : Nat × Conn :=
  if my_id ≠ p.1 then (p.1, sendToUser p.2 (broadcastPayload text)) else p

/-- The wire form of a well-formed inbound frame: `{"Send":{"text":"hi"}}`
(braces written with hex escapes). -/
def sendHiJson : String := "\x7b\"Send\":\x7b\"text\":\"hi\"\x7d\x7d"

/-- The serialized outbound envelope for the text `"hi"`:
`{"NewMessage":{"by":"someone","text":"hi"}}`. -/
def newMessageHiJson : String :=
  "\x7b\"NewMessage\":\x7b\"by\":\"someone\",\"text\":\"hi\"\x7d\x7d"

/-- Closed form of the broadcast loop: every entry is transformed by
`broadcastEntry`, and one enqueue attempt is recorded per entry whose id
differs from the sender's, in iteration order. -/
theorem broadcastLoop_eq (my_id : Nat) (text : String) (users : Registry) :
    broadcastLoop my_id (Responses.NewMessage "someone" text) users =
      some (users.map (broadcastEntry my_id text),
        (users.filter (fun p => my_id ≠ p.1)).map
          (fun p => Event.enqueueAttempt p.1 (broadcastPayload text))) := by
  induction users with
  | nil => rfl
  | cons p rest ih =>
    obtain ⟨uid, c⟩ := p
    by_cases h : my_id = uid
    · subst h
      simp [broadcastLoop, serde_json_to_string, ih, broadcastEntry, broadcastPayload]
    · simp [broadcastLoop, serde_json_to_string, ih, h, broadcastEntry, broadcastPayload]

/-- Characterization of `user_message` on a text frame whose payload
decodes to `Send { text }`. -/
theorem user_message_ok (my_id : Nat) (raw text : String) (users : Registry)
    (hdec : serde_json_from_str raw = .ok (.Send text)) :
    user_message my_id (.text raw) users =
      some { users := users.map (broadcastEntry my_id text),
             logs := [],
             events := Event.lockAcquire ::
               (users.filter (fun p => my_id ≠ p.1)).map
                 (fun p => Event.enqueueAttempt p.1 (broadcastPayload text)) ++
               [Event.lockRelease] } := by
  simp [user_message, WsMessage.to_str, hdec, broadcastLoop_eq]

/-- Characterization of `user_message` on a text frame whose payload fails
to decode. -/
theorem user_message_err (my_id : Nat) (raw e : String) (users : Registry)
    (hfail : serde_json_from_str raw = .error e) :
    user_message my_id (.text raw) users =
      some { users := users,
             logs := ["Failed to decode: " ++ raw, "Failed to decode: " ++ e],
             events := [] } := by
  simp [user_message, WsMessage.to_str, hfail]

/-- Claim C1. For every connection whose inbound payload frame fails to
decode as a `ChatMessage`, `user_message` logs the failure, performs no
broadcast (the registry lock is not even taken and no enqueue event
occurs), leaves the registry unchanged, and the connection remains open:
a subsequent well-formed `Send` from the same connection still broadcasts
normally over the unchanged registry. -/
theorem decode_failure_nonfatal (my_id : Nat) (raw e : String) (users : Registry)
    (hfail : serde_json_from_str raw = .error e) :
    user_message my_id (.text raw) users =
      some { users := users,
             logs := ["Failed to decode: " ++ raw, "Failed to decode: " ++ e],
             events := [] } ∧
    (∀ good text : String, serde_json_from_str good = .ok (.Send text) →
      user_message my_id (.text good) users =
        some { users := users.map (broadcastEntry my_id text),
               logs := [],
               events := Event.lockAcquire ::
                 (users.filter (fun p => my_id ≠ p.1)).map
                   (fun p => Event.enqueueAttempt p.1 (broadcastPayload text)) ++
                 [Event.lockRelease] }) :=
  ⟨user_message_err my_id raw e users hfail,
   fun good text h => user_message_ok my_id good text users h⟩

/-- Witness for C1: user 1 sends the raw text `not json` with users 1 and 2
connected; nothing is broadcast and the registry is unchanged, and a
subsequent `{"Send":{"text":"hi"}}` from user 1 still reaches user 2. -/
theorem decode_failure_nonfatal_witness :
    user_message 1 (.text "not json") [(1, ⟨[], true⟩), (2, ⟨[], true⟩)] =
      some { users := [(1, ⟨[], true⟩), (2, ⟨[], true⟩)],
             logs := ["Failed to decode: not json", "Failed to decode: invalid literal"],
             events := [] } ∧
    user_message 1 (.text sendHiJson) [(1, ⟨[], true⟩), (2, ⟨[], true⟩)] =
      some { users := [(1, ⟨[], true⟩), (2, ⟨[WsMessage.text newMessageHiJson], true⟩)],
             logs := [],
             events := [.lockAcquire,
               .enqueueAttempt 2 (WsMessage.text newMessageHiJson), .lockRelease] } := by
  have h := decode_failure_nonfatal 1 "not json" "invalid literal"
    [(1, ⟨[], true⟩), (2, ⟨[], true⟩)] rfl
  exact ⟨h.1, h.2 sendHiJson "hi" rfl⟩

/-- Claim C2. A broadcast dispatch never enqueues onto the sender's own
outbound queue: no enqueue event with the sender's id occurs, an enqueue
attempt does occur for every registry entry whose id differs from the
sender's, and every registry entry keyed by the sender's id is left
exactly as it was. -/
theorem broadcast_never_self_enqueue (my_id : Nat) (raw text : String)
    (users : Registry) (res : MsgResult)
    (hdec : serde_json_from_str raw = .ok (.Send text))
    (hrun : user_message my_id (.text raw) users = some res) :
    (∀ p : WsMessage, Event.enqueueAttempt my_id p ∉ res.events) ∧
    (∀ uid c, (uid, c) ∈ users → my_id ≠ uid →
      Event.enqueueAttempt uid (broadcastPayload text) ∈ res.events) ∧
    (∀ c, (my_id, c) ∈ users → (my_id, c) ∈ res.users) := by
  rw [user_message_ok my_id raw text users hdec] at hrun
  cases Option.some.inj hrun
  refine ⟨?_, ?_, ?_⟩
  · intro p hp
    rcases List.mem_cons.1 hp with h1 | h2
    · exact Event.noConfusion h1
    · rcases List.mem_append.1 h2 with h3 | h4
      · obtain ⟨q, hq, hqe⟩ := List.mem_map.1 h3
        have hne : my_id ≠ q.1 := by
          have := (List.mem_filter.1 hq).2
          simpa using this
        injection hqe with e1 _
        exact hne e1.symm
      · have h5 := List.mem_singleton.1 h4
        exact Event.noConfusion h5
  · intro uid c hmem hne
    have hf : (uid, c) ∈ users.filter (fun p => my_id ≠ p.1) := by
      simp only [List.mem_filter, decide_eq_true_eq]
      exact ⟨hmem, hne⟩
    have hm := List.mem_map_of_mem
      (fun p => Event.enqueueAttempt p.1 (broadcastPayload text)) hf
    exact List.mem_cons_of_mem _ (List.mem_append_left _ hm)
  · intro c hmem
    have hfix : broadcastEntry my_id text (my_id, c) = (my_id, c) := by
      simp [broadcastEntry]
    have hm := List.mem_map_of_mem (broadcastEntry my_id text) hmem
    rwa [hfix] at hm

/-- Witness for C2: user 1 sends `{"Send":{"text":"hi"}}` with users 1 and
2 connected; no enqueue attempt targets user 1, one targets user 2, and
user 1's entry is unchanged. -/
theorem broadcast_never_self_enqueue_witness :
    Event.enqueueAttempt 1 (broadcastPayload "hi") ∉
      ([.lockAcquire, .enqueueAttempt 2 (WsMessage.text newMessageHiJson),
        .lockRelease] : List Event) ∧
    Event.enqueueAttempt 2 (broadcastPayload "hi") ∈
      ([.lockAcquire, .enqueueAttempt 2 (WsMessage.text newMessageHiJson),
        .lockRelease] : List Event) ∧
    ((1, (⟨[], true⟩ : Conn)) ∈
      ([(1, ⟨[], true⟩), (2, ⟨[WsMessage.text newMessageHiJson], true⟩)] : Registry)) := by
  have h := broadcast_never_self_enqueue 1 sendHiJson "hi"
    [(1, ⟨[], true⟩), (2, ⟨[], true⟩)]
    { users := [(1, ⟨[], true⟩), (2, ⟨[WsMessage.text newMessageHiJson], true⟩)],
      logs := [],
      events := [.lockAcquire, .enqueueAttempt 2 (WsMessage.text newMessageHiJson),
        .lockRelease] }
    rfl rfl
  exact ⟨h.1 (broadcastPayload "hi"),
    h.2.1 2 ⟨[], true⟩ (by simp) (by decide),
    h.2.2 ⟨[], true⟩ (by simp)⟩

/-- Claim C3. A decoded `Send { text }` is dispatched as exactly the envelope
`NewMessage { by: "someone", text }`, serialized as
`{"NewMessage":{"by":"someone","text":<text>}}`; every registry entry
other than the sender's is transformed exactly once, an open one receiving
exactly one copy appended to its queue, while the sender's entries are
untouched. -/
theorem broadcast_delivers_exactly_once (my_id : Nat) (raw text : String)
    (users : Registry) (res : MsgResult)
    (hdec : serde_json_from_str raw = .ok (.Send text))
    (hrun : user_message my_id (.text raw) users = some res) :
    serializeResponse (Responses.NewMessage "someone" text) =
      "\x7b\"NewMessage\":\x7b\"by\":\"someone\",\"text\":" ++ jsonQuote text ++
        "\x7d\x7d" ∧
    res.users = users.map (broadcastEntry my_id text) ∧
    (∀ uid c, (uid, c) ∈ users → my_id ≠ uid → c.isOpen = true →
      (uid, Conn.mk (c.queue ++ [broadcastPayload text]) true) ∈ res.users) ∧
    (∀ c, (my_id, c) ∈ users → (my_id, c) ∈ res.users) := by
  rw [user_message_ok my_id raw text users hdec] at hrun
  cases Option.some.inj hrun
  refine ⟨?_, rfl, ?_, ?_⟩
  · show String.singleton lbraceChar ++ jsonQuote "NewMessage" ++ ":" ++
        String.singleton lbraceChar ++ jsonQuote "by" ++ ":" ++ jsonQuote "someone" ++
        "," ++ jsonQuote "text" ++ ":" ++ jsonQuote text ++
        String.singleton rbraceChar ++ String.singleton rbraceChar = _
    rw [show String.singleton lbraceChar ++ jsonQuote "NewMessage" ++ ":" ++
        String.singleton lbraceChar ++ jsonQuote "by" ++ ":" ++ jsonQuote "someone" ++
        "," ++ jsonQuote "text" ++ ":" =
        "\x7b\"NewMessage\":\x7b\"by\":\"someone\",\"text\":" from rfl]
    rw [String.append_assoc]
    rw [show String.singleton rbraceChar ++ String.singleton rbraceChar = "\x7d\x7d"
      from rfl]
  · intro uid c hmem hne hopen
    obtain ⟨q, o⟩ := c
    cases hopen
    have hfix : broadcastEntry my_id text (uid, Conn.mk q true) =
        (uid, Conn.mk (q ++ [broadcastPayload text]) true) := by
      simp [broadcastEntry, hne, sendToUser]
    have hm := List.mem_map_of_mem (broadcastEntry my_id text) hmem
    rwa [hfix] at hm
  · intro c hmem
    have hfix : broadcastEntry my_id text (my_id, c) = (my_id, c) := by
      simp [broadcastEntry]
    have hm := List.mem_map_of_mem (broadcastEntry my_id text) hmem
    rwa [hfix] at hm

/-- Witness for C3: connections 1 (A), 2 (B), 3 (C) are open and A sends
`{"Send":{"text":"hi"}}`; B and C each receive exactly one copy of the
serialized envelope, A receives nothing. -/
theorem broadcast_delivers_exactly_once_witness :
    serializeResponse (Responses.NewMessage "someone" "hi") =
      "\x7b\"NewMessage\":\x7b\"by\":\"someone\",\"text\":" ++ jsonQuote "hi" ++
        "\x7d\x7d" ∧
    (2, Conn.mk [broadcastPayload "hi"] true) ∈
      ([(1, ⟨[], true⟩), (2, ⟨[WsMessage.text newMessageHiJson], true⟩),
        (3, ⟨[WsMessage.text newMessageHiJson], true⟩)] : Registry) ∧
    (3, Conn.mk [broadcastPayload "hi"] true) ∈
      ([(1, ⟨[], true⟩), (2, ⟨[WsMessage.text newMessageHiJson], true⟩),
        (3, ⟨[WsMessage.text newMessageHiJson], true⟩)] : Registry) ∧
    ((1, (⟨[], true⟩ : Conn)) ∈
      ([(1, ⟨[], true⟩), (2, ⟨[WsMessage.text newMessageHiJson], true⟩),
        (3, ⟨[WsMessage.text newMessageHiJson], true⟩)] : Registry)) := by
  have h := broadcast_delivers_exactly_once 1 sendHiJson "hi"
    [(1, ⟨[], true⟩), (2, ⟨[], true⟩), (3, ⟨[], true⟩)]
    { users := [(1, ⟨[], true⟩), (2, ⟨[WsMessage.text newMessageHiJson], true⟩),
        (3, ⟨[WsMessage.text newMessageHiJson], true⟩)],
      logs := [],
      events := [.lockAcquire, .enqueueAttempt 2 (WsMessage.text newMessageHiJson),
        .enqueueAttempt 3 (WsMessage.text newMessageHiJson), .lockRelease] }
    rfl rfl
  exact ⟨h.1,
    h.2.2.1 2 ⟨[], true⟩ (by simp) (by decide) rfl,
    h.2.2.1 3 ⟨[], true⟩ (by simp) (by decide) rfl,
    h.2.2.2 ⟨[], true⟩ (by simp)⟩

/-- Claim C4. If an enqueue onto some target's outbound handle fails because
the consuming side is gone (`isOpen = false`), the failure is swallowed:
nothing is logged, no registry entry is removed (the key set is
preserved), the torn-down entry itself is left exactly as it was, and
enqueues to the remaining open connections are unaffected. -/
theorem enqueue_failure_swallowed (my_id : Nat) (raw text : String)
    (users : Registry) (res : MsgResult)
    (hdec : serde_json_from_str raw = .ok (.Send text))
    (hrun : user_message my_id (.text raw) users = some res) :
    res.logs = [] ∧
    registryKeys res.users = registryKeys users ∧
    (∀ uid c, (uid, c) ∈ users → c.isOpen = false → (uid, c) ∈ res.users) ∧
    (∀ uid c, (uid, c) ∈ users → my_id ≠ uid → c.isOpen = true →
      (uid, Conn.mk (c.queue ++ [broadcastPayload text]) true) ∈ res.users) := by
  rw [user_message_ok my_id raw text users hdec] at hrun
  cases Option.some.inj hrun
  refine ⟨rfl, ?_, ?_, ?_⟩
  · have hcomp : Prod.fst ∘ broadcastEntry my_id text = (Prod.fst : Nat × Conn → Nat) := by
      funext p
      by_cases h : my_id ≠ p.1 <;> simp [broadcastEntry, Function.comp, h]
    simp [registryKeys, List.map_map, hcomp]
  · intro uid c hmem hclosed
    have hfix : broadcastEntry my_id text (uid, c) = (uid, c) := by
      by_cases h : my_id ≠ uid <;> simp [broadcastEntry, h, sendToUser, hclosed]
    have hm := List.mem_map_of_mem (broadcastEntry my_id text) hmem
    rwa [hfix] at hm
  · intro uid c hmem hne hopen
    obtain ⟨q, o⟩ := c
    cases hopen
    have hfix : broadcastEntry my_id text (uid, Conn.mk q true) =
        (uid, Conn.mk (q ++ [broadcastPayload text]) true) := by
      simp [broadcastEntry, hne, sendToUser]
    have hm := List.mem_map_of_mem (broadcastEntry my_id text) hmem
    rwa [hfix] at hm

/-- Witness for C4: user 3's receiving side is torn down (`isOpen =
false`); user 1's broadcast leaves no log, keeps all three keys, leaves
user 3's entry untouched and still delivers to user 2. -/
theorem enqueue_failure_swallowed_witness :
    registryKeys ([(1, ⟨[], true⟩), (2, ⟨[WsMessage.text newMessageHiJson], true⟩),
        (3, ⟨[], false⟩)] : Registry) =
      registryKeys ([(1, ⟨[], true⟩), (2, ⟨[], true⟩), (3, ⟨[], false⟩)] : Registry) ∧
    ((3, (⟨[], false⟩ : Conn)) ∈
      ([(1, ⟨[], true⟩), (2, ⟨[WsMessage.text newMessageHiJson], true⟩),
        (3, ⟨[], false⟩)] : Registry)) ∧
    (2, Conn.mk [broadcastPayload "hi"] true) ∈
      ([(1, ⟨[], true⟩), (2, ⟨[WsMessage.text newMessageHiJson], true⟩),
        (3, ⟨[], false⟩)] : Registry) := by
  have h := enqueue_failure_swallowed 1 sendHiJson "hi"
    [(1, ⟨[], true⟩), (2, ⟨[], true⟩), (3, ⟨[], false⟩)]
    { users := [(1, ⟨[], true⟩), (2, ⟨[WsMessage.text newMessageHiJson], true⟩),
        (3, ⟨[], false⟩)],
      logs := [],
      events := [.lockAcquire, .enqueueAttempt 2 (WsMessage.text newMessageHiJson),
        .enqueueAttempt 3 (WsMessage.text newMessageHiJson), .lockRelease] }
    rfl rfl
  exact ⟨h.2.1,
    h.2.2.1 3 ⟨[], false⟩ (by simp) rfl,
    h.2.2.2 2 ⟨[], true⟩ (by simp) (by decide) rfl⟩

/-- If the part of the trace between acquire and release is nonempty and
consists of enqueue attempts, some enqueue happens while the lock is
held. -/
theorem enqueueWhileLocked_of_inner (inner : List Event)
    (h : ∀ ev ∈ inner, ∃ uid p, ev = Event.enqueueAttempt uid p)
    (hne : inner ≠ []) :
    enqueueWhileLocked (Event.lockAcquire :: inner ++ [Event.lockRelease]) = true := by
  cases inner with
  | nil => exact absurd rfl hne
  | cons e rest =>
    obtain ⟨uid, p, rfl⟩ := h e (List.mem_cons_self _ _)
    rfl

/-- Claim C5, counterexample. The broadcast dispatcher does hold the registry
lock while enqueueing: with users 1 and 2 connected and user 1 sending
`{"Send":{"text":"hi"}}`, the enqueue attempt onto user 2's handle occurs
between the lock acquisition and its release, refuting the claim that the
lock is never held across an enqueue. -/
theorem lock_never_held_during_enqueue_cex :
    user_message 1 (.text sendHiJson) [(1, ⟨[], true⟩), (2, ⟨[], true⟩)] =
      some { users := [(1, ⟨[], true⟩), (2, ⟨[WsMessage.text newMessageHiJson], true⟩)],
             logs := [],
             events := [.lockAcquire,
               .enqueueAttempt 2 (WsMessage.text newMessageHiJson), .lockRelease] } ∧
    enqueueWhileLocked [.lockAcquire,
      .enqueueAttempt 2 (WsMessage.text newMessageHiJson), .lockRelease] = true :=
  ⟨rfl, rfl⟩

/-- Claim C5, amended. The broadcast dispatcher iterates the user map under
the registry lock (`users.lock().unwrap().iter()`), with no lock-free
snapshot: the lock is acquired once, every enqueue attempt happens between
the acquisition and the release, and whenever at least one non-sender
entry exists the lock is provably held during an enqueue. -/
theorem lock_held_through_broadcast (my_id : Nat) (raw text : String)
    (users : Registry) (res : MsgResult)
    (hdec : serde_json_from_str raw = .ok (.Send text))
    (hrun : user_message my_id (.text raw) users = some res) :
    res.events = Event.lockAcquire ::
      (users.filter (fun p => my_id ≠ p.1)).map
        (fun p => Event.enqueueAttempt p.1 (broadcastPayload text)) ++
      [Event.lockRelease] ∧
    (∀ ev ∈ (users.filter (fun p => my_id ≠ p.1)).map
        (fun p => Event.enqueueAttempt p.1 (broadcastPayload text)),
      ∃ uid p, my_id ≠ uid ∧ ev = Event.enqueueAttempt uid p) ∧
    ((users.filter (fun p => my_id ≠ p.1)).map
        (fun p => Event.enqueueAttempt p.1 (broadcastPayload text)) ≠ [] →
      enqueueWhileLocked res.events = true) := by
  rw [user_message_ok my_id raw text users hdec] at hrun
  cases Option.some.inj hrun
  have hin : ∀ ev ∈ (users.filter (fun p => my_id ≠ p.1)).map
      (fun p => Event.enqueueAttempt p.1 (broadcastPayload text)),
      ∃ uid p, my_id ≠ uid ∧ ev = Event.enqueueAttempt uid p := by
    intro ev hev
    obtain ⟨q, hq, rfl⟩ := List.mem_map.1 hev
    have hne : my_id ≠ q.1 := by simpa using (List.mem_filter.1 hq).2
    exact ⟨q.1, broadcastPayload text, hne, rfl⟩
  refine ⟨rfl, hin, fun hne => ?_⟩
  exact enqueueWhileLocked_of_inner _
    (fun ev hev => (hin ev hev).imp (fun uid h => h.imp (fun p hp => hp.2))) hne

/-- Witness for the amended C5: in the two-user run, the enqueue onto user
2's handle happens while the registry lock is held. -/
theorem lock_held_through_broadcast_witness :
    enqueueWhileLocked [.lockAcquire,
      .enqueueAttempt 2 (WsMessage.text newMessageHiJson), .lockRelease] = true := by
  have h := lock_held_through_broadcast 1 sendHiJson "hi"
    [(1, ⟨[], true⟩), (2, ⟨[], true⟩)]
    { users := [(1, ⟨[], true⟩), (2, ⟨[WsMessage.text newMessageHiJson], true⟩)],
      logs := [],
      events := [.lockAcquire, .enqueueAttempt 2 (WsMessage.text newMessageHiJson),
        .lockRelease] }
    rfl rfl
  exact h.2.2 (by decide)

/-- Closed form of the allocator: the `(n+1)`-st call returns `(1 + n)`
modulo the wrapping bound of `usize`. -/
theorem allocValue_eq (n : Nat) : allocValue n = (1 + n) % 2 ^ usizeBits := by
  have h : ∀ k, allocStateAfter k = (1 + k) % 2 ^ usizeBits := by
    intro k
    induction k with
    | zero => decide
    | succ k ih =>
      show (fetch_add (allocStateAfter k)).2 = _
      rw [ih]
      show ((1 + k) % 2 ^ usizeBits + 1) % 2 ^ usizeBits = (1 + (k + 1)) % 2 ^ usizeBits
      rw [Nat.mod_add_mod, Nat.add_assoc]
  show (fetch_add (allocStateAfter n)).1 = _
  exact h n

/-- Claim C6, counterexample. The allocator counter wraps at `usize::MAX`:
call number `2^64` (counting from 0) returns 1 again, the same identifier
as the very first call, and call number `2^64 - 1` returns 0, which is not
greater than the 1 returned first — refuting unconditional strict increase
and global uniqueness. -/
theorem next_user_id_wraps_cex :
    (0 : Nat) ≠ 2 ^ usizeBits ∧
    allocValue 0 = 1 ∧
    allocValue (2 ^ usizeBits) = 1 ∧
    allocValue (2 ^ usizeBits - 1) = 0 ∧
    ¬ allocValue 0 < allocValue (2 ^ usizeBits - 1) := by
  have h0 := allocValue_eq 0
  have h1 := allocValue_eq (2 ^ usizeBits)
  have h2 := allocValue_eq (2 ^ usizeBits - 1)
  refine ⟨by decide, ?_, ?_, ?_, ?_⟩
  · rw [h0]; decide
  · rw [h1]; decide
  · rw [h2]; decide
  · rw [h0, h2]; decide

/-- Claim C6, amended. The id allocator starts at 1 and is strictly
increasing and collision-free until the `usize` counter wraps: the first
allocation returns 1; allocations are strictly increasing while the
counter stays below `usize::MAX`, and any two of the first `2^64` calls
return distinct identifiers.  Beyond that the wrapping counter repeats
values. -/
theorem next_user_id_strictly_increasing_until_wrap :
    allocValue 0 = 1 ∧
    (∀ m n : Nat, m < n → n < 2 ^ usizeBits - 1 → allocValue m < allocValue n) ∧
    (∀ m n : Nat, m ≠ n → m < 2 ^ usizeBits → n < 2 ^ usizeBits →
      allocValue m ≠ allocValue n) := by
  refine ⟨by rw [allocValue_eq]; decide, ?_, ?_⟩
  · intro m n hmn hn
    rw [allocValue_eq, allocValue_eq]
    have h1 : 1 + m < 2 ^ usizeBits := by omega
    have h2 : 1 + n < 2 ^ usizeBits := by omega
    rw [Nat.mod_eq_of_lt h1, Nat.mod_eq_of_lt h2]
    omega
  · intro m n hmn hm hn
    rw [allocValue_eq, allocValue_eq]
    intro heq
    rcases Nat.lt_or_ge (1 + m) (2 ^ usizeBits) with hlt1 | hge1
    · rw [Nat.mod_eq_of_lt hlt1] at heq
      rcases Nat.lt_or_ge (1 + n) (2 ^ usizeBits) with hlt2 | hge2
      · rw [Nat.mod_eq_of_lt hlt2] at heq
        omega
      · have he : 1 + n = 2 ^ usizeBits := by omega
        rw [he, Nat.mod_self] at heq
        omega
    · have he : 1 + m = 2 ^ usizeBits := by omega
      rw [he, Nat.mod_self] at heq
      rcases Nat.lt_or_ge (1 + n) (2 ^ usizeBits) with hlt2 | hge2
      · rw [Nat.mod_eq_of_lt hlt2] at heq
        omega
      · have he2 : 1 + n = 2 ^ usizeBits := by omega
        omega

/-- Witness for the amended C6 on the first three allocations. -/
theorem next_user_id_strictly_increasing_until_wrap_witness :
    allocValue 0 = 1 ∧ allocValue 0 < allocValue 1 ∧ allocValue 1 ≠ allocValue 2 := by
  have h := next_user_id_strictly_increasing_until_wrap
  exact ⟨h.1, h.2.1 0 1 (by decide) (by decide),
    h.2.2 1 2 (by decide) (by decide) (by decide)⟩

/-- Claim C7. `user_disconnected` (the `HashMap::remove` of the disconnect
path) is idempotent: removing an id that is absent from the registry
leaves the registry unchanged, and removing the same id twice yields the
same registry as removing it once. -/
theorem remove_idempotent (my_id : Nat) (users : Registry) :
    (my_id ∉ registryKeys users → user_disconnected my_id users = users) ∧
    user_disconnected my_id (user_disconnected my_id users) =
      user_disconnected my_id users := by
  constructor
  · intro habs
    apply List.filter_eq_self.2
    intro p hp
    simp only [decide_eq_true_eq]
    intro hcon
    exact habs (hcon ▸ List.mem_map_of_mem Prod.fst hp)
  · simp [user_disconnected, List.filter_filter]

/-- Witness for C7: removing the absent id 5 from a one-entry registry is
a no-op, and removing it twice equals removing it once. -/
theorem remove_idempotent_witness :
    user_disconnected 5 [(2, (⟨[], true⟩ : Conn))] = [(2, ⟨[], true⟩)] ∧
    user_disconnected 5 (user_disconnected 5 [(2, (⟨[], true⟩ : Conn))]) =
      user_disconnected 5 [(2, ⟨[], true⟩)] := by
  have h := remove_idempotent 5 [(2, ⟨[], true⟩)]
  exact ⟨h.1 (by decide), h.2⟩

/-- Claim C9. `user_message` is panic-free exactly on text frames: on every
text frame it runs to completion, while on any non-text frame
`msg.to_str()` returns an error and the `unwrap` panics (modelled as
`none`) — in particular on binary frames. -/
theorem user_message_total_on_text (my_id : Nat) (users : Registry) :
    (∀ s : String, (user_message my_id (.text s) users).isSome = true) ∧
    (∀ msg : WsMessage, msg.to_str = none → user_message my_id msg users = none) ∧
    (∀ bytes : List Nat, (WsMessage.binary bytes).to_str = none) := by
  refine ⟨?_, ?_, fun bytes => rfl⟩
  · intro s
    cases h : serde_json_from_str s with
    | error e => rw [user_message_err my_id s e users h]; rfl
    | ok m =>
      cases m with
      | Send t => rw [user_message_ok my_id s t users h]; rfl
  · intro msg hm
    simp [user_message, hm]

/-- Witness for C9: a text frame (even an undecodable one) completes, a
binary frame panics. -/
theorem user_message_total_on_text_witness :
    (user_message 7 (.text "not json") []).isSome = true ∧
    user_message 7 (.binary [0, 1]) [] = none := by
  have h := user_message_total_on_text 7 []
  exact ⟨h.1 "not json", h.2.1 (.binary [0, 1]) rfl⟩

/-- Claim C10. Serializing the outbound envelope never fails:
`serde_json::to_string` on `NewMessage { by: "someone", text }` returns
`Ok` for every text, so the `unwrap` at the enqueue site cannot panic
(`user_message` returns a result), and every enqueue attempt of a single
dispatch carries the identical serialized string. -/
theorem serialization_never_fails (text : String) :
    serde_json_to_string (Responses.NewMessage "someone" text) =
      .ok (serializeResponse (Responses.NewMessage "someone" text)) ∧
    (∀ (my_id : Nat) (raw : String) (users : Registry),
      serde_json_from_str raw = .ok (.Send text) →
      ∃ res : MsgResult,
        user_message my_id (.text raw) users = some res ∧
        ∀ ev ∈ res.events, ev = Event.lockAcquire ∨ ev = Event.lockRelease ∨
          ∃ uid, ev = Event.enqueueAttempt uid (broadcastPayload text)) := by
  refine ⟨rfl, ?_⟩
  intro my_id raw users hdec
  refine ⟨_, user_message_ok my_id raw text users hdec, ?_⟩
  intro ev hev
  rcases List.mem_cons.1 hev with h1 | h2
  · exact Or.inl h1
  · rcases List.mem_append.1 h2 with h3 | h4
    · obtain ⟨q, _, rfl⟩ := List.mem_map.1 h3
      exact Or.inr (Or.inr ⟨q.1, rfl⟩)
    · exact Or.inr (Or.inl (List.mem_singleton.1 h4))

/-- Witness for C10: in the two-user run the serializer returns `Ok` and
the one enqueue attempt carries exactly the serialized envelope. -/
theorem serialization_never_fails_witness :
    serde_json_to_string (Responses.NewMessage "someone" "hi") =
      .ok newMessageHiJson ∧
    (Event.enqueueAttempt 2 (WsMessage.text newMessageHiJson) = Event.lockAcquire ∨
     Event.enqueueAttempt 2 (WsMessage.text newMessageHiJson) = Event.lockRelease ∨
     ∃ uid, Event.enqueueAttempt 2 (WsMessage.text newMessageHiJson) =
       Event.enqueueAttempt uid (broadcastPayload "hi")) := by
  have hconc : user_message 1 (.text sendHiJson) [(1, ⟨[], true⟩), (2, ⟨[], true⟩)] =
      some { users := [(1, ⟨[], true⟩), (2, ⟨[WsMessage.text newMessageHiJson], true⟩)],
             logs := [],
             events := [.lockAcquire,
               .enqueueAttempt 2 (WsMessage.text newMessageHiJson), .lockRelease] } := rfl
  obtain ⟨res, hrun, hall⟩ :=
    (serialization_never_fails "hi").2 1 sendHiJson [(1, ⟨[], true⟩), (2, ⟨[], true⟩)] rfl
  cases Option.some.inj (hconc.symm.trans hrun)
  exact ⟨(serialization_never_fails "hi").1, hall _ (by simp)⟩

/-- Key membership after an insert: the inserted key, or any key that was
already present. -/
theorem mem_keys_insert (uid id : Nat) (h : Conn) (r : Registry) :
    uid ∈ registryKeys (registryInsert id h r) ↔ uid = id ∨ uid ∈ registryKeys r := by
  simp only [registryInsert, registryKeys, List.map_cons, List.mem_cons, List.mem_map,
    List.mem_filter, decide_eq_true_eq]
  constructor
  · rintro (h1 | ⟨p, ⟨hp, _⟩, rfl⟩)
    · exact Or.inl h1
    · exact Or.inr ⟨p, hp, rfl⟩
  · rintro (rfl | ⟨p, hp, rfl⟩)
    · exact Or.inl rfl
    · by_cases he : p.1 = id
      · exact Or.inl he
      · exact Or.inr ⟨p, ⟨hp, he⟩, rfl⟩

/-- Key membership after a remove: present before and not the removed
key. -/
theorem mem_keys_remove (uid id : Nat) (r : Registry) :
    uid ∈ registryKeys (user_disconnected id r) ↔
      uid ∈ registryKeys r ∧ uid ≠ id := by
  simp only [user_disconnected, registryKeys, List.mem_map, List.mem_filter,
    decide_eq_true_eq]
  constructor
  · rintro ⟨p, ⟨hp, hne⟩, rfl⟩
    exact ⟨⟨p, hp, rfl⟩, hne⟩
  · rintro ⟨⟨p, hp, rfl⟩, hne⟩
    exact ⟨p, ⟨hp, hne⟩, rfl⟩

/-- A key is in the registry produced by folding lifecycle events over an
initial registry exactly when the open/closed scan of the events, started
from the key's initial membership, ends open. -/
theorem keys_foldl_open (es : List LifecycleEvent) :
    ∀ (r : Registry) (id : Nat),
      id ∈ registryKeys (List.foldl lifecycleStep r es) ↔
        openFrom (decide (id ∈ registryKeys r)) es id = true := by
  induction es with
  | nil =>
    intro r id
    simp [openFrom]
  | cons e rest ih =>
    intro r id
    rw [List.foldl_cons, ih (lifecycleStep r e) id]
    have hstep : openFrom (decide (id ∈ registryKeys r)) (e :: rest) id =
        openFrom (decide (id ∈ registryKeys (lifecycleStep r e))) rest id := by
      have hfold : openFrom (decide (id ∈ registryKeys r)) (e :: rest) id =
          openFrom (match e with
            | .connect i _ => if i = id then true else decide (id ∈ registryKeys r)
            | .disconnect i => if i = id then false else decide (id ∈ registryKeys r))
            rest id := rfl
      rw [hfold]
      congr 1
      cases e with
      | connect i hc =>
        by_cases hii : i = id
        · subst hii
          simp only [if_pos rfl]
          exact (decide_eq_true ((mem_keys_insert i i hc r).mpr (Or.inl rfl))).symm
        · simp only [if_neg hii]
          exact (decide_eq_decide.mpr ((mem_keys_insert id i hc r).trans
            (or_iff_right (fun he => hii he.symm)))).symm
      | disconnect i =>
        by_cases hii : i = id
        · subst hii
          simp only [if_pos rfl]
          refine (decide_eq_false ?_).symm
          intro hmem
          exact ((mem_keys_remove i i r).1 hmem).2 rfl
        · simp only [if_neg hii]
          exact (decide_eq_decide.mpr ((mem_keys_remove id i r).trans
            (and_iff_left (fun he => hii he.symm)))).symm
    rw [hstep]

/-- A key whose scan ends open was either open initially or appears in
some connect event. -/
theorem openFrom_mem_connected (es : List LifecycleEvent) :
    ∀ (b : Bool) (id : Nat),
      openFrom b es id = true → b = true ∨ id ∈ connectedIds es := by
  induction es with
  | nil =>
    intro b id h
    exact Or.inl h
  | cons e rest ih =>
    intro b id h
    cases e with
    | connect i hh =>
      have h' : openFrom (if i = id then true else b) rest id = true := h
      rcases ih _ id h' with hb | hm
      · by_cases hii : i = id
        · subst hii
          exact Or.inr (List.mem_cons_self _ _)
        · rw [if_neg hii] at hb
          exact Or.inl hb
      · exact Or.inr (List.mem_cons_of_mem _ hm)
    | disconnect i =>
      have h' : openFrom (if i = id then false else b) rest id = true := h
      rcases ih _ id h' with hb | hm
      · by_cases hii : i = id
        · rw [if_pos hii] at hb
          exact absurd hb (by simp)
        · rw [if_neg hii] at hb
          exact Or.inl hb
      · exact Or.inr hm

/-- One lifecycle step preserves distinctness of registry keys. -/
theorem nodup_keys_step (r : Registry) (e : LifecycleEvent)
    (hn : (registryKeys r).Nodup) : (registryKeys (lifecycleStep r e)).Nodup := by
  cases e with
  | connect i h =>
    simp only [lifecycleStep, registryInsert, registryKeys, List.map_cons,
      List.nodup_cons]
    constructor
    · intro hmem
      obtain ⟨p, hp, he⟩ := List.mem_map.1 hmem
      have hne := (List.mem_filter.1 hp).2
      simp only [decide_eq_true_eq] at hne
      exact hne he
    · exact hn.sublist ((List.filter_sublist r).map Prod.fst)
  | disconnect i =>
    exact hn.sublist ((List.filter_sublist r).map Prod.fst)

/-- The registry reached from the empty map always has distinct keys. -/
theorem nodup_keys_run (es : List LifecycleEvent) :
    (registryKeys (runLifecycle es)).Nodup := by
  have h : ∀ (r : Registry), (registryKeys r).Nodup →
      (registryKeys (List.foldl lifecycleStep r es)).Nodup := by
    induction es with
    | nil => intro r hr; exact hr
    | cons e rest ih => intro r hr; exact ih _ (nodup_keys_step r e hr)
  exact h [] (by simp [registryKeys])

/-- Claim C8. In every state reachable by connect/disconnect events from the
empty registry, the registry contains exactly the identifiers that have
completed `connect` and not yet completed `disconnect`: its keys are
distinct, membership coincides with the open scan of the event history,
its size equals the number of such identifiers, `connect(id, handle)` puts
the pair `(id, handle)` in the registry, and after `disconnect(id)` the
key `id` is gone. -/
theorem registry_tracks_connections (es : List LifecycleEvent) :
    (∀ id, id ∈ registryKeys (runLifecycle es) ↔ openAfter es id = true) ∧
    (registryKeys (runLifecycle es)).Nodup ∧
    (runLifecycle es).length =
      ((connectedIds es).dedup.filter (fun id => openAfter es id)).length ∧
    (∀ (users : Registry) (id : Nat) (h : Conn),
      (id, h) ∈ lifecycleStep users (.connect id h)) ∧
    (∀ (users : Registry) (id : Nat),
      id ∉ registryKeys (lifecycleStep users (.disconnect id))) := by
  have hmem : ∀ id, id ∈ registryKeys (runLifecycle es) ↔ openAfter es id = true := by
    intro id
    rw [runLifecycle, keys_foldl_open es [] id]
    simp [openAfter, registryKeys]
  have hnodup := nodup_keys_run es
  refine ⟨hmem, hnodup, ?_, ?_, ?_⟩
  · have hs : ((connectedIds es).dedup.filter (fun id => openAfter es id)).Nodup :=
      (List.nodup_dedup _).filter _
    have hiff : ∀ a, a ∈ registryKeys (runLifecycle es) ↔
        a ∈ (connectedIds es).dedup.filter (fun id => openAfter es id) := by
      intro a
      rw [List.mem_filter, List.mem_dedup, hmem a]
      constructor
      · intro hopen
        rcases openFrom_mem_connected es false a hopen with hb | hc
        · exact absurd hb (by simp)
        · exact ⟨hc, hopen⟩
      · exact fun h => h.2
    have hlen := ((List.perm_ext_iff_of_nodup hnodup hs).2 hiff).length_eq
    simpa [registryKeys] using hlen
  · intro users id h
    exact List.mem_cons_self _ _
  · intro users id hmem2
    have := (mem_keys_remove id id users).1 hmem2
    exact this.2 rfl

/-- Witness for C8 on the history connect 1, connect 2, disconnect 1. -/
theorem registry_tracks_connections_witness :
    (1 ∈ registryKeys (runLifecycle
        [.connect 1 ⟨[], true⟩, .connect 2 ⟨[], true⟩, .disconnect 1]) ↔
      openAfter [.connect 1 ⟨[], true⟩, .connect 2 ⟨[], true⟩, .disconnect 1] 1 = true) ∧
    (runLifecycle [.connect 1 ⟨[], true⟩, .connect 2 ⟨[], true⟩,
        .disconnect 1]).length =
      ((connectedIds [.connect 1 ⟨[], true⟩, .connect 2 ⟨[], true⟩,
          .disconnect 1]).dedup.filter
        (fun id => openAfter
          [.connect 1 ⟨[], true⟩, .connect 2 ⟨[], true⟩, .disconnect 1] id)).length ∧
    ((2, (⟨[], true⟩ : Conn)) ∈ lifecycleStep [] (.connect 2 ⟨[], true⟩)) ∧
    (1 ∉ registryKeys (lifecycleStep [(1, (⟨[], true⟩ : Conn))] (.disconnect 1))) := by
  have h := registry_tracks_connections
    [.connect 1 ⟨[], true⟩, .connect 2 ⟨[], true⟩, .disconnect 1]
  exact ⟨h.1 1, h.2.2.1, h.2.2.2.1 [] 2 ⟨[], true⟩, h.2.2.2.2 [(1, ⟨[], true⟩)] 1⟩

end WebsocketsChat
